import Mathlib

/-!
Shallow embedding of the `postgres_secrets` pgpass core: the field/port/row/document
parsers (src/pgpass/parser/*), the encoder (src/pgpass/pattern.rs), and the
query resolver (src/pgpass/mod.rs), together with proofs of the specification
claims about them.  Strings are modelled as `List Char`; Rust's `NonZeroU16`
is modelled as the subtype of naturals in `1..=65535`.
-/

deriving instance DecidableEq for Except

namespace PostgresSecrets

/-! Constants from src/pgpass/mod.rs. -/

def DELIMITER_CHAR : Char := ':'
def COMMENT_CHAR : Char := '#'
def ESCAPE_CHAR : Char := '\\'
def WILDCARD_CHAR : Char := '*'
def ESCAPABLE : List Char := [ESCAPE_CHAR, WILDCARD_CHAR, DELIMITER_CHAR]
def DEFAULT_PORT : Nat := 5432

/-- Model of Rust's `NonZeroU16`: a natural number in `1..=65535`. -/
abbrev PortNum := {n : Nat // 0 < n ∧ n < 65536}

def defaultPortNum : PortNum := ⟨DEFAULT_PORT, by constructor <;> decide⟩

/-! Error types.  The `Unknown` variants model the catch-all variants
`FieldError::Unknown(ErrorKind)`, `PortError::Unknown(ErrorKind)` and
`ParsingError::Unknown(ErrorKind)`; the nom `ErrorKind` payload is dropped since
no claim depends on it. -/

/-- `FieldError` from src/pgpass/parser/field.rs. -/
inductive FieldError where
  | Empty
  | InvalidEscape (c : Char)
  | InvalidEscapeNoChar
  | Required
  | Undelimited
  | Unknown
deriving DecidableEq, Repr

/-- `PortError` from src/pgpass/parser/port.rs. -/
inductive PortError where
  | Empty
  | InvalidPort
  | InvalidPortNumber (n : Nat)
  | Undelimited
  | Unknown
deriving DecidableEq, Repr

/-- `ParsingError` from src/pgpass/parser/mod.rs. -/
inductive ParsingError where
  | InvalidHostname (e : FieldError)
  | InvalidPort (e : PortError)
  | InvalidDatabase (e : FieldError)
  | InvalidUsername (e : FieldError)
  | InvalidPassword (e : FieldError)
  | UnrecognizedColumn
  | Unknown
deriving DecidableEq, Repr

/-- `IncompleteCredential` from src/pgpass/mod.rs. -/
inductive IncompleteCredential where
  | MissingHostname
  | MissingDatabase
  | MissingUsername
deriving DecidableEq, Repr

/-- `CredentialPattern<HasPasswordTrue>` from src/pgpass/pattern.rs: one row of a
pgpass document.  `none` denotes a wildcard; the password is required. -/
structure CredentialPattern where
  hostname : Option (List Char)
  port : Option PortNum
  database : Option (List Char)
  username : Option (List Char)
  password : List Char
deriving DecidableEq, Repr

/-- `CredentialQuery` from src/pgpass/pattern.rs. -/
structure CredentialQuery where
  hostname : Option (List Char)
  port : Option PortNum
  database : Option (List Char)
  username : Option (List Char)
deriving DecidableEq, Repr

/-- `Credentials` from src/lib.rs: a fully resolved record. -/
structure Credentials where
  hostname : List Char
  port : PortNum
  database : List Char
  username : List Char
  password : List Char
deriving DecidableEq, Repr

/-- `PgPass` from src/pgpass/mod.rs: the ordered document of rows. -/
structure PgPass where
  patterns : List CredentialPattern
deriving DecidableEq, Repr

/-! ## Field codec (src/pgpass/parser/field.rs) -/

/-- A character accepted by `none_of("\\:*\r\n")` inside `escaped_transform`. -/
def isNormalChar (c : Char) : Bool :=
  !(c = ESCAPE_CHAR || c = DELIMITER_CHAR || c = WILDCARD_CHAR || c = '\r' || c = '\n')

/-- `tag(WILDCARD)`: the `wildcard` parser succeeds exactly on a leading `*`,
consuming it. -/
def wildcard : List Char → Option (List Char)
  | c :: rest => if c = WILDCARD_CHAR then some rest else none
  | [] => none

/-- The loop of nom's `escaped_transform(none_of("\\:*\r\n"), '\\', alt((...)))`
as instantiated in `field_value`.  The boolean argument tracks whether we are at
index 0 of the original input (before any character has been consumed), which
changes the behaviour on a leading terminator character.  Returns the decoded
value together with the unconsumed remainder. -/
def escapedTransformGo : List Char → Bool → Except FieldError (List Char × List Char)
  | [], _ => .ok ([], [])
  | c :: rest, isFirst =>
    if isNormalChar c then
      match escapedTransformGo rest false with
      | .ok (v, r) => .ok (c :: v, r)
      | .error e => .error e
    else if c = ESCAPE_CHAR then
      match rest with
      | [] => .error .InvalidEscapeNoChar
      | d :: rest' =>
        if d = ESCAPE_CHAR ∨ d = DELIMITER_CHAR ∨ d = WILDCARD_CHAR then
          match escapedTransformGo rest' false with
          | .ok (v, r) => .ok (d :: v, r)
          | .error e => .error e
        else .error (.InvalidEscape d)
    else
      if isFirst then .error .InvalidEscapeNoChar
      else .ok ([], c :: rest)

/-- `field_value` from src/pgpass/parser/field.rs. -/
def field_value (s : List Char) : Except FieldError (List Char × List Char) :=
  if s.isEmpty || (s.head?.any fun c => c = DELIMITER_CHAR) then .error .Empty
  else escapedTransformGo s true

/-- `field` from src/pgpass/parser/field.rs: wildcard yields `none`, otherwise
`field_value` yields `some`. -/
def field (s : List Char) : Except FieldError (Option (List Char) × List Char) :=
  match wildcard s with
  | some rest => .ok (none, rest)
  | none =>
    match field_value s with
    | .ok (v, r) => .ok (some v, r)
    | .error e => .error e

/-- `required_field` from src/pgpass/parser/field.rs: a wildcard is rejected
with `Required`. -/
def required_field (s : List Char) : Except FieldError (List Char × List Char) :=
  match wildcard s with
  | some _ => .error .Required
  | none => field_value s

/-! ## Port field (src/pgpass/parser/port.rs) -/

/-- The maximal leading run of decimal digits, as consumed by nom's `digit1`:
returns the digit prefix and the rest of the input. -/
def takeDigits : List Char → List Char × List Char
  | [] => ([], [])
  | c :: rest =>
    if c.isDigit then
      let (d, r) := takeDigits rest
      (c :: d, r)
    else ([], c :: rest)

/-- The numeric value of a digit string, as computed by Rust's
`str::parse::<u32>` (before its overflow check). -/
def digitsToNat (ds : List Char) : Nat :=
  ds.foldl (fun acc c => acc * 10 + (c.toNat - 48)) 0

/-- `non_zero_u16` from src/pgpass/parser/port.rs.  `digit1` failing (no leading
digit) and `parse::<u32>` overflowing both yield `InvalidPort`; a value above
`u16::MAX` or equal to zero yields `InvalidPortNumber` carrying the parsed `u32`
magnitude. -/
def non_zero_u16 (s : List Char) : Except PortError (PortNum × List Char) :=
  let (digits, rest) := takeDigits s
  if digits.isEmpty then .error .InvalidPort
  else
    let n := digitsToNat digits
    if n > 4294967295 then .error .InvalidPort
    else if h1 : n > 65535 then .error (.InvalidPortNumber n)
    else if h2 : n = 0 then .error (.InvalidPortNumber n)
    else .ok (⟨n, Nat.pos_of_ne_zero h2, by omega⟩, rest)

/-- `port_number` from src/pgpass/parser/port.rs. -/
def port_number (s : List Char) : Except PortError (Option PortNum × List Char) :=
  match wildcard s with
  | some rest => .ok (none, rest)
  | none =>
    if s.isEmpty || (s.head?.any fun c => c = DELIMITER_CHAR) then .error .Empty
    else
      match non_zero_u16 s with
      | .ok (n, r) => .ok (some n, r)
      | .error e => .error e

/-! ## Row parser (src/pgpass/parser/credential_pattern.rs) -/

/-- `field_delimiter`: `tag(DELIMITER)` mapped to `FieldError::Undelimited` on
failure. -/
def field_delimiter (s : List Char) : Except FieldError (List Char) :=
  match s with
  | c :: rest => if c = DELIMITER_CHAR then .ok rest else .error .Undelimited
  | [] => .error .Undelimited

/-- nom's `character::complete::line_ending`: consumes `\n` or `\r\n`. -/
def line_ending (s : List Char) : Option (List Char) :=
  match s with
  | c :: rest =>
    if c = '\n' then some rest
    else if c = '\r' then
      match rest with
      | d :: rest' => if d = '\n' then some rest' else none
      | [] => none
    else none
  | [] => none

/-- `hostname_field`: a field followed by its delimiter, errors wrapped in
`InvalidHostname`. -/
def hostname_field (s : List Char) : Except ParsingError (Option (List Char) × List Char) :=
  match field s with
  | .error e => .error (.InvalidHostname e)
  | .ok (v, r) =>
    match field_delimiter r with
    | .error e => .error (.InvalidHostname e)
    | .ok r' => .ok (v, r')

/-- `port_field`: `port_number` followed by `tag(DELIMITER)` (whose failure is
`PortError::from_error_kind(_, Tag) = Undelimited`), errors wrapped in
`InvalidPort`. -/
def port_field (s : List Char) : Except ParsingError (Option PortNum × List Char) :=
  match port_number s with
  | .error e => .error (.InvalidPort e)
  | .ok (v, r) =>
    match r with
    | c :: rest =>
      if c = DELIMITER_CHAR then .ok (v, rest) else .error (.InvalidPort .Undelimited)
    | [] => .error (.InvalidPort .Undelimited)

/-- `database_field`: as `hostname_field`, errors wrapped in `InvalidDatabase`. -/
def database_field (s : List Char) : Except ParsingError (Option (List Char) × List Char) :=
  match field s with
  | .error e => .error (.InvalidDatabase e)
  | .ok (v, r) =>
    match field_delimiter r with
    | .error e => .error (.InvalidDatabase e)
    | .ok r' => .ok (v, r')

/-- `username_field`: as `hostname_field`, errors wrapped in `InvalidUsername`. -/
def username_field (s : List Char) : Except ParsingError (Option (List Char) × List Char) :=
  match field s with
  | .error e => .error (.InvalidUsername e)
  | .ok (v, r) =>
    match field_delimiter r with
    | .error e => .error (.InvalidUsername e)
    | .ok r' => .ok (v, r')

/-- `password_field`: `(required_field, opt(field_delimiter), opt(line_ending))`;
if the optional delimiter matched, the row has a sixth column and the result is
`UnrecognizedColumn`. -/
def password_field (s : List Char) : Except ParsingError (List Char × List Char) :=
  match required_field s with
  | .error e => .error (.InvalidPassword e)
  | .ok (pw, r) =>
    match field_delimiter r with
    | .ok _ => .error .UnrecognizedColumn
    | .error _ =>
      match line_ending r with
      | some r' => .ok (pw, r')
      | none => .ok (pw, r)

/-- `credential_pattern`: the five columns in order. -/
def credential_pattern (s : List Char) :
    Except ParsingError (CredentialPattern × List Char) :=
  match hostname_field s with
  | .error e => .error e
  | .ok (hostname, r1) =>
    match port_field r1 with
    | .error e => .error e
    | .ok (port, r2) =>
      match database_field r2 with
      | .error e => .error e
      | .ok (database, r3) =>
        match username_field r3 with
        | .error e => .error e
        | .ok (username, r4) =>
          match password_field r4 with
          | .error e => .error e
          | .ok (password, r5) => .ok (⟨hostname, port, database, username, password⟩, r5)

/-! ## Ignored lines (src/pgpass/parser/ignored.rs) -/

/-- `blank_line`: a bare line ending. -/
def blank_line (s : List Char) : Option (List Char) :=
  line_ending s

/-- `comment`: `#`, then `many0(none_of("\r\n"))`, then `opt(line_ending)`. -/
def comment (s : List Char) : Option (List Char) :=
  match s with
  | c :: rest =>
    if c = COMMENT_CHAR then
      let r1 := rest.dropWhile fun d => !(d = '\r' || d = '\n')
      match line_ending r1 with
      | some r2 => some r2
      | none => some r1
    else none
  | [] => none

/-- `ignored`: `alt((blank_line, comment))`. -/
def ignored (s : List Char) : Option (List Char) :=
  match blank_line s with
  | some r => some r
  | none => comment s

/-! ## Document parser (src/pgpass/parser/mod.rs) -/

/-- The loop of `pgpass`, made structural via a fuel argument.  The fuel-zero
arm is unreachable whenever `fuel > s.length` (each iteration consumes at least
one character); `pgpass_sufficient_fuel` below makes that precise. -/
def pgpassGo : Nat → List Char → Except ParsingError (List CredentialPattern)
  | 0, _ => .error .Unknown
  | fuel + 1, s =>
    if s.isEmpty then .ok []
    else
      match ignored s with
      | some r => pgpassGo fuel r
      | none =>
        match credential_pattern s with
        | .error e => .error e
        | .ok (p, r) =>
          match pgpassGo fuel r with
          | .error e => .error e
          | .ok ps => .ok (p :: ps)

/-- `pgpass` from src/pgpass/parser/mod.rs (also `FromStr for PgPass`): parse a
whole document. -/
def pgpass (s : List Char) : Except ParsingError PgPass :=
  match pgpassGo (s.length + 1) s with
  | .error e => .error e
  | .ok ps => .ok ⟨ps⟩

/-! ## Encoder (src/pgpass/pattern.rs) -/

/-- `escape_into`: prefix every character in `ESCAPABLE` with the escape
character. -/
def escape_into (s : List Char) : List Char :=
  s.flatMap fun c => if c ∈ ESCAPABLE then [ESCAPE_CHAR, c] else [c]

/-- Decimal rendering of a natural number (Rust's `NonZeroU16::to_string`). -/
def natToChars (n : Nat) : List Char :=
  (Nat.digits 10 n).reverse.map Nat.digitChar

/-- One optional text column of `encode_into`: the escaped value, or the
wildcard character. -/
def encodeTextField : Option (List Char) → List Char
  | some v => escape_into v
  | none => [WILDCARD_CHAR]

/-- The port column of `encode_into`: its decimal text (passed through
`escape_into`, a no-op on digits), or the wildcard character. -/
def encodePortField : Option PortNum → List Char
  | some p => escape_into (natToChars p.val)
  | none => [WILDCARD_CHAR]

/-- `CredentialPattern::encode_into`: the four delimited columns, the escaped
password, and a terminating newline. -/
def encode_into (p : CredentialPattern) : List Char :=
  encodeTextField p.hostname ++ [DELIMITER_CHAR] ++
  encodePortField p.port ++ [DELIMITER_CHAR] ++
  encodeTextField p.database ++ [DELIMITER_CHAR] ++
  encodeTextField p.username ++ [DELIMITER_CHAR] ++
  escape_into p.password ++ ['\n']

/-- `PgPass::save_into`: each pattern encoded in order. -/
def encodePgPass (pg : PgPass) : List Char :=
  pg.patterns.flatMap encode_into

/-! ## Query resolver (src/pgpass/mod.rs) -/

/-- One column of the compatibility test in `PgPass::find`: the `zip` of the
query side and the pattern side must not hold unequal concrete values. -/
def fieldCompatible (q p : Option (List Char)) : Bool :=
  match q, p with
  | some a, some b => a = b
  | _, _ => true

/-- The port column of the compatibility test in `PgPass::find`. -/
def portCompatible (q p : Option PortNum) : Bool :=
  match q, p with
  | some a, some b => a = b
  | _, _ => true

/-- The whole compatibility test of `PgPass::find` (hostname, port, database,
username; the password is never compared). -/
def patternMatches (q : CredentialQuery) (p : CredentialPattern) : Bool :=
  fieldCompatible q.hostname p.hostname &&
  portCompatible q.port p.port &&
  fieldCompatible q.database p.database &&
  fieldCompatible q.username p.username

/-- `TryFrom<CredentialPattern<HasPasswordTrue>> for Credentials`
(src/pgpass/pattern.rs): fail on a missing hostname, database or username (in
that order); default the port to `DEFAULT_PORT`. -/
def tryIntoCredentials (p : CredentialPattern) : Except IncompleteCredential Credentials :=
  match p.hostname with
  | none => .error .MissingHostname
  | some h =>
    match p.database with
    | none => .error .MissingDatabase
    | some d =>
      match p.username with
      | none => .error .MissingUsername
      | some u => .ok ⟨h, p.port.getD defaultPortNum, d, u, p.password⟩

/-- `PgPass::pattern_to_creds`: merge the query over the pattern (query side
wins per field; the password always comes from the pattern) and convert. -/
def pattern_to_creds (q : CredentialQuery) (p : CredentialPattern) :
    Except IncompleteCredential Credentials :=
  tryIntoCredentials
    ⟨q.hostname.or p.hostname, q.port.or p.port, q.database.or p.database,
     q.username.or p.username, p.password⟩

/-- The loop of `PgPass::find` over the stored rows. -/
def findIn (q : CredentialQuery) : List CredentialPattern →
    Except IncompleteCredential (Option Credentials)
  | [] => .ok none
  | p :: rest =>
    if patternMatches q p then
      match pattern_to_creds q p with
      | .ok c => .ok (some c)
      | .error e => .error e
    else findIn q rest

/-- `PgPass::find`. -/
def PgPass.find (pg : PgPass) (q : CredentialQuery) :
    Except IncompleteCredential (Option Credentials) :=
  findIn q pg.patterns

/-! ## Debug formatting of `Credentials` (src/lib.rs) -/

/-- Rust's `Debug` rendering of a string value: quoted, with quotes and
backslashes escaped (the further escapes Rust applies to control characters are
immaterial to the claims and are elided). -/
def debugStr (s : List Char) : List Char :=
  Char.ofNat 34 :: (s.flatMap fun c =>
    if c = ESCAPE_CHAR || c = Char.ofNat 34 then [ESCAPE_CHAR, c] else [c]) ++ [Char.ofNat 34]

/-- The hand-rolled `Debug for Credentials` (src/lib.rs): all identity fields
are printed, and the password field is printed as the fixed text
`"[ Censored ]"`. -/
def Credentials.debugFmt (c : Credentials) : List Char :=
  "Credentials \x7b hostname: ".toList ++ debugStr c.hostname ++
  ", port: ".toList ++ natToChars c.port.val ++
  ", database: ".toList ++ debugStr c.database ++
  ", username: ".toList ++ debugStr c.username ++
  ", password: ".toList ++ debugStr "[ Censored ]".toList ++ " \x7d".toList

/-! ## Auxiliary predicates used by the claim statements -/

/-- A `ParsingError` is (or wraps) one of the catch-all `Unknown` variants. -/
def mentionsUnknown : ParsingError → Bool
  | .Unknown => true
  | .InvalidHostname .Unknown => true
  | .InvalidDatabase .Unknown => true
  | .InvalidUsername .Unknown => true
  | .InvalidPassword .Unknown => true
  | .InvalidPort .Unknown => true
  | _ => false

/-- The character restriction of the round-trip claim: no delimiter, wildcard,
escape or line-break characters, i.e. every character is accepted by the
parser's `none_of("\\:*\r\n")`. -/
def noSpecialChars (v : List Char) : Prop :=
  ∀ c ∈ v, isNormalChar c

/-- `noSpecialChars` lifted to an optional (wildcardable) field. -/
def optNoSpecialChars : Option (List Char) → Prop
  | some v => noSpecialChars v
  | none => True

/-- The round-trip claim's hypothesis, exactly as stated: every field of every
row is free of delimiter/wildcard/escape/line-break characters. -/
def docHasNoSpecialChars (pg : PgPass) : Prop :=
  ∀ p ∈ pg.patterns, optNoSpecialChars p.hostname ∧ optNoSpecialChars p.database ∧
    optNoSpecialChars p.username ∧ noSpecialChars p.password

/-- The amended round-trip hypothesis for one row: the stated character
restriction, plus the text fields are non-empty and a concrete hostname does
not begin with the comment character. -/
def roundTripSafe (p : CredentialPattern) : Prop :=
  optNoSpecialChars p.hostname ∧ optNoSpecialChars p.database ∧
    optNoSpecialChars p.username ∧ noSpecialChars p.password ∧
    p.hostname ≠ some [] ∧ p.database ≠ some [] ∧ p.username ≠ some [] ∧
    p.password ≠ [] ∧ (∀ v, p.hostname = some v → v.head? ≠ some COMMENT_CHAR)

/-- Modelled from the spec's wording of the merge rule in §4.6: the query's
concrete value if present, else the row's value. -/
def mergedField (q r : Option (List Char)) : Option (List Char) :=
  match q with
  | some v => some v
  | none => r

/-- Modelled from the spec's wording of the merge rule for the port column. -/
def mergedPort (q r : Option PortNum) : Option PortNum :=
  match q with
  | some v => some v
  | none => r

/-- The resolution of one compatible row, worded as in the spec (§4.6): merge
each field query-first; a missing hostname/database/username fails with the
corresponding error; a missing port falls back to the default port; the
password is always the row's. -/
def resolveRowSpec (q : CredentialQuery) (p : CredentialPattern) :
    Except IncompleteCredential Credentials :=
  match mergedField q.hostname p.hostname with
  | none => .error .MissingHostname
  | some h =>
    match mergedField q.database p.database with
    | none => .error .MissingDatabase
    | some d =>
      match mergedField q.username p.username with
      | none => .error .MissingUsername
      | some u =>
        .ok ⟨h, (mergedPort q.port p.port).getD defaultPortNum, d, u, p.password⟩

/-! ## Sanity checks against the repository's unit tests -/

example : field ['a', 'b', 'c', ':', 'd'] = .ok (some ['a', 'b', 'c'], [':', 'd']) := by decide
example : field ['*', ':', 'd'] = .ok (none, [':', 'd']) := by decide
example : field ['a', 'b', '\\', ':', 'c'] = .ok (some ['a', 'b', ':', 'c'], []) := by decide
example : field ['a', '\\', 'x', 'c'] = .error (.InvalidEscape 'x') := by decide
example : field ['a', 'b', 'c', '\\'] = .error .InvalidEscapeNoChar := by decide
example : field [':', 'd'] = .error .Empty := by decide
example : field [] = .error .Empty := by decide
example : required_field ['*', ':', 'd'] = .error .Required := by decide
example : port_number ['1', '2', '3', ':', 'a'] =
    .ok (some ⟨123, by omega, by omega⟩, [':', 'a']) := by decide
example : port_number ['*', ':', 'a'] = .ok (none, [':', 'a']) := by decide
example : port_number ['0'] = .error (.InvalidPortNumber 0) := by decide
example : port_number ['6', '5', '5', '3', '6'] = .error (.InvalidPortNumber 65536) := by decide
example : port_number ['a', 'b', 'c'] = .error .InvalidPort := by decide
example : port_number [] = .error .Empty := by decide
example : port_number [':'] = .error .Empty := by decide
example : pgpass ":2:three:four:five".toList = .error (.InvalidHostname .Empty) := by decide
example : pgpass "one:0:three:four:five".toList =
    .error (.InvalidPort (.InvalidPortNumber 0)) := by decide

/-! ## Step lemmas for the escape-decoding loop -/

theorem etGo_cons_normal (c : Char) (rest : List Char) (b : Bool)
    (h : isNormalChar c = true) :
    escapedTransformGo (c :: rest) b =
      match escapedTransformGo rest false with
      | .ok (v, r) => .ok (c :: v, r)
      | .error e => .error e := by
  cases rest with
  | nil => rw [escapedTransformGo.eq_2, if_pos h]
  | cons d rest' => rw [escapedTransformGo.eq_3, if_pos h]

theorem etGo_escape_end (b : Bool) :
    escapedTransformGo [ESCAPE_CHAR] b = .error .InvalidEscapeNoChar := by
  rw [escapedTransformGo.eq_2, if_neg (by decide), if_pos rfl]

theorem etGo_escape_pair (d : Char) (rest' : List Char) (b : Bool) :
    escapedTransformGo (ESCAPE_CHAR :: d :: rest') b =
      if d = ESCAPE_CHAR ∨ d = DELIMITER_CHAR ∨ d = WILDCARD_CHAR then
        match escapedTransformGo rest' false with
        | .ok (v, r) => .ok (d :: v, r)
        | .error e => .error e
      else .error (.InvalidEscape d) := by
  rw [escapedTransformGo.eq_3, if_neg (by decide), if_pos rfl]

theorem etGo_cons_stop (c : Char) (rest : List Char) (b : Bool)
    (h1 : isNormalChar c = false) (h2 : c ≠ ESCAPE_CHAR) :
    escapedTransformGo (c :: rest) b =
      if b then .error .InvalidEscapeNoChar else .ok ([], c :: rest) := by
  cases rest with
  | nil => rw [escapedTransformGo.eq_2, if_neg (by simp [h1]), if_neg h2]
  | cons d rest' => rw [escapedTransformGo.eq_3, if_neg (by simp [h1]), if_neg h2]

theorem etGo_error_ne_unknown : ∀ (s : List Char) (b : Bool) (e : FieldError),
    escapedTransformGo s b = .error e → e ≠ .Unknown := by
  intro s b
  induction s, b using escapedTransformGo.induct with
  | case1 b => intro e h; rw [escapedTransformGo.eq_1] at h; exact absurd h (by simp)
  | case2 c rest b hn v r heq ih =>
    intro e h
    rw [etGo_cons_normal c rest b hn, heq] at h
    exact absurd h (by simp)
  | case3 c rest b hn e' heq ih =>
    intro e h
    rw [etGo_cons_normal c rest b hn, heq] at h
    simp only [Except.error.injEq] at h
    exact h ▸ ih e' heq
  | case4 b h' =>
    intro e h
    rw [etGo_escape_end] at h
    simp only [Except.error.injEq] at h
    simp [← h]
  | case5 b d rest' hd v r heq h' ih =>
    intro e h
    rw [etGo_escape_pair, if_pos hd, heq] at h
    exact absurd h (by simp)
  | case6 b d rest' hd e' heq h' ih =>
    intro e h
    rw [etGo_escape_pair, if_pos hd, heq] at h
    simp only [Except.error.injEq] at h
    exact h ▸ ih e' heq
  | case7 b d rest' hd h' =>
    intro e h
    rw [etGo_escape_pair, if_neg hd] at h
    simp only [Except.error.injEq] at h
    simp [← h]
  | case8 c rest hn hesc =>
    intro e h
    rw [etGo_cons_stop c rest true (by simpa using hn) hesc, if_pos rfl] at h
    simp only [Except.error.injEq] at h
    simp [← h]
  | case9 c rest b hn hesc hb =>
    intro e h
    rw [etGo_cons_stop c rest b (by simpa using hn) hesc,
      if_neg (by simpa using hb)] at h
    exact absurd h (by simp)

theorem etGo_remaining_le : ∀ (s : List Char) (b : Bool) (v r : List Char),
    escapedTransformGo s b = .ok (v, r) → r.length ≤ s.length := by
  intro s b
  induction s, b using escapedTransformGo.induct with
  | case1 b =>
    intro v r h
    rw [escapedTransformGo.eq_1] at h
    simp only [Except.ok.injEq, Prod.mk.injEq] at h
    simp [← h.2]
  | case2 c rest b hn v' r' heq ih =>
    intro v r h
    rw [etGo_cons_normal c rest b hn, heq] at h
    simp only [Except.ok.injEq, Prod.mk.injEq] at h
    obtain ⟨-, rfl⟩ := h
    have := ih v' r' heq
    simp only [List.length_cons]
    omega
  | case3 c rest b hn e' heq ih =>
    intro v r h
    rw [etGo_cons_normal c rest b hn, heq] at h
    exact absurd h (by simp)
  | case4 b h' =>
    intro v r h
    rw [etGo_escape_end] at h
    exact absurd h (by simp)
  | case5 b d rest' hd v' r' heq h' ih =>
    intro v r h
    rw [etGo_escape_pair, if_pos hd, heq] at h
    simp only [Except.ok.injEq, Prod.mk.injEq] at h
    obtain ⟨-, rfl⟩ := h
    have := ih v' r' heq
    simp only [List.length_cons]
    omega
  | case6 b d rest' hd e' heq h' ih =>
    intro v r h
    rw [etGo_escape_pair, if_pos hd, heq] at h
    exact absurd h (by simp)
  | case7 b d rest' hd h' =>
    intro v r h
    rw [etGo_escape_pair, if_neg hd] at h
    exact absurd h (by simp)
  | case8 c rest hn hesc =>
    intro v r h
    rw [etGo_cons_stop c rest true (by simpa using hn) hesc, if_pos rfl] at h
    exact absurd h (by simp)
  | case9 c rest b hn hesc hb =>
    intro v r h
    rw [etGo_cons_stop c rest b (by simpa using hn) hesc,
      if_neg (by simpa using hb)] at h
    simp only [Except.ok.injEq, Prod.mk.injEq] at h
    simp [← h.2]

/-! ## Clean-text lemmas for the field codec -/

theorem isNormalChar_spec (c : Char) (h : isNormalChar c = true) :
    c ≠ ESCAPE_CHAR ∧ c ≠ DELIMITER_CHAR ∧ c ≠ WILDCARD_CHAR ∧ c ≠ '\r' ∧ c ≠ '\n' := by
  unfold isNormalChar at h
  simp only [Bool.not_eq_eq_eq_not, Bool.not_true, Bool.or_eq_false_iff,
    decide_eq_false_iff_not] at h
  exact ⟨h.1.1.1.1, h.1.1.1.2, h.1.1.2, h.1.2, h.2⟩

theorem isNormalChar_not_escapable (c : Char) (h : isNormalChar c = true) :
    c ∉ ESCAPABLE := by
  obtain ⟨h1, h2, h3, -, -⟩ := isNormalChar_spec c h
  simp [ESCAPABLE, h1, h2, h3]

theorem etGo_clean_front (v : List Char) (hv : ∀ c ∈ v, isNormalChar c = true)
    (rest : List Char) (b : Bool) :
    escapedTransformGo (v ++ rest) b =
      match escapedTransformGo rest (b && v.isEmpty) with
      | .ok (w, r) => .ok (v ++ w, r)
      | .error e => .error e := by
  induction v generalizing b with
  | nil =>
    simp only [List.nil_append, List.isEmpty_nil, Bool.and_true]
    cases h : escapedTransformGo rest b with
    | ok p => cases p; simp
    | error e => simp
  | cons x v' ih =>
    have hx : isNormalChar x = true := hv x (by simp)
    have hv' : ∀ c ∈ v', isNormalChar c = true := fun c hc => hv c (by simp [hc])
    rw [List.cons_append, etGo_cons_normal x (v' ++ rest) b hx, ih hv' false]
    simp only [Bool.false_and, List.isEmpty_cons, Bool.and_false]
    cases h : escapedTransformGo rest false with
    | ok p => cases p; simp
    | error e => simp

theorem etGo_clean_terminated (v : List Char) (hv : ∀ c ∈ v, isNormalChar c = true)
    (c : Char) (hc : isNormalChar c = false) (hesc : c ≠ ESCAPE_CHAR)
    (r : List Char) (b : Bool) (hb : (b && v.isEmpty) = false) :
    escapedTransformGo (v ++ c :: r) b = .ok (v, c :: r) := by
  rw [etGo_clean_front v hv (c :: r) b, hb, etGo_cons_stop c r false hc hesc]
  simp

theorem escape_into_clean (v : List Char) (hv : ∀ c ∈ v, c ∉ ESCAPABLE) :
    escape_into v = v := by
  induction v with
  | nil => rfl
  | cons x v' ih =>
    have hx : x ∉ ESCAPABLE := hv x (by simp)
    have hv' : ∀ c ∈ v', c ∉ ESCAPABLE := fun c hc => hv c (by simp [hc])
    simp [escape_into, hx]
    simpa [escape_into] using ih hv'

theorem field_value_clean (v : List Char) (hv : ∀ c ∈ v, isNormalChar c = true)
    (hne : v ≠ []) (c : Char) (hc : isNormalChar c = false) (hesc : c ≠ ESCAPE_CHAR)
    (r : List Char) :
    field_value (v ++ c :: r) = .ok (v, c :: r) := by
  obtain ⟨x, v', rfl⟩ := List.exists_cons_of_ne_nil hne
  have hx : isNormalChar x = true := hv x (by simp)
  have hxd : x ≠ DELIMITER_CHAR := (isNormalChar_spec x hx).2.1
  unfold field_value
  rw [if_neg (by simp [hxd])]
  exact etGo_clean_terminated _ hv c hc hesc r true (by simp)

theorem field_clean (v : List Char) (hv : ∀ c ∈ v, isNormalChar c = true)
    (hne : v ≠ []) (c : Char) (hc : isNormalChar c = false) (hesc : c ≠ ESCAPE_CHAR)
    (r : List Char) :
    field (v ++ c :: r) = .ok (some v, c :: r) := by
  obtain ⟨x, v', rfl⟩ := List.exists_cons_of_ne_nil hne
  have hx : isNormalChar x = true := hv x (by simp)
  have hxw : x ≠ WILDCARD_CHAR := (isNormalChar_spec x hx).2.2.1
  unfold field
  rw [List.cons_append]
  simp only [wildcard, if_neg hxw]
  rw [← List.cons_append, field_value_clean _ hv hne c hc hesc r]

/-! ## Inversion lemmas -/

theorem wildcard_some (s r : List Char) (h : wildcard s = some r) :
    s = WILDCARD_CHAR :: r := by
  cases s with
  | nil => exact absurd h (by simp [wildcard])
  | cons c rest =>
    simp only [wildcard] at h
    split_ifs at h with hc
    cases h; rw [hc]

theorem field_delimiter_ok (s r : List Char) (h : field_delimiter s = .ok r) :
    s = DELIMITER_CHAR :: r := by
  cases s with
  | nil => exact absurd h (by simp [field_delimiter])
  | cons c rest =>
    simp only [field_delimiter] at h
    split_ifs at h with hc
    simp only [Except.ok.injEq] at h; rw [hc, h]

theorem field_none (s r : List Char) (h : field s = .ok (none, r)) :
    wildcard s = some r := by
  unfold field at h
  cases hw : wildcard s with
  | some rest => rw [hw] at h; simp only [Except.ok.injEq, Prod.mk.injEq] at h; rw [h.2]
  | none =>
    rw [hw] at h
    cases hf : field_value s with
    | ok p =>
      cases p
      rw [hf] at h
      exact absurd h (by simp)
    | error e => rw [hf] at h; exact absurd h (by simp)

/-! ## Digit and port lemmas -/

theorem digitChar_facts : ∀ d, d < 10 → (Nat.digitChar d).isDigit = true ∧
    (Nat.digitChar d).toNat = 48 + d ∧ isNormalChar (Nat.digitChar d) = true ∧
    Nat.digitChar d ∉ ESCAPABLE ∧ Nat.digitChar d ≠ WILDCARD_CHAR ∧
    Nat.digitChar d ≠ DELIMITER_CHAR := by decide

theorem isDigit_not_special (c : Char) (h : c.isDigit = true) :
    c ≠ WILDCARD_CHAR ∧ c ≠ DELIMITER_CHAR := by
  constructor <;> rintro rfl <;> exact absurd h (by decide)

theorem natToChars_mem (n : Nat) (c : Char) (hc : c ∈ natToChars n) :
    ∃ d, d < 10 ∧ c = Nat.digitChar d := by
  unfold natToChars at hc
  simp only [List.mem_map, List.mem_reverse] at hc
  obtain ⟨d, hd, rfl⟩ := hc
  exact ⟨d, Nat.digits_lt_base (by norm_num) hd, rfl⟩

theorem natToChars_ne_nil (n : Nat) (h : 0 < n) : natToChars n ≠ [] := by
  unfold natToChars
  intro hcon
  have hdig : Nat.digits 10 n = [] := by
    rcases hd : Nat.digits 10 n with - | ⟨a, l⟩
    · rfl
    · rw [hd] at hcon; simp at hcon
  rw [Nat.digits_eq_nil_iff_eq_zero] at hdig
  omega

theorem digitsToNat_rev_digits (ds : List Nat) (h : ∀ d ∈ ds, d < 10) :
    digitsToNat (ds.reverse.map Nat.digitChar) = Nat.ofDigits 10 ds := by
  induction ds with
  | nil => simp [digitsToNat, Nat.ofDigits]
  | cons d ds ih =>
    have hd : d < 10 := h d (by simp)
    have hds : ∀ e ∈ ds, e < 10 := fun e he => h e (by simp [he])
    have htn : (Nat.digitChar d).toNat = 48 + d := (digitChar_facts d hd).2.1
    simp only [List.reverse_cons, List.map_append, List.map_cons, List.map_nil]
    unfold digitsToNat at ih ⊢
    rw [List.foldl_append]
    simp only [List.foldl_cons, List.foldl_nil]
    rw [ih hds, htn, Nat.ofDigits_cons]
    omega

theorem digitsToNat_natToChars (n : Nat) : digitsToNat (natToChars n) = n := by
  unfold natToChars
  rw [digitsToNat_rev_digits _ (fun d hd => Nat.digits_lt_base (by norm_num) hd)]
  exact Nat.ofDigits_digits 10 n

theorem takeDigits_split (ds r : List Char) (hds : ∀ c ∈ ds, c.isDigit = true)
    (hr : ∀ c, r.head? = some c → c.isDigit = false) :
    takeDigits (ds ++ r) = (ds, r) := by
  induction ds with
  | nil =>
    cases r with
    | nil => rfl
    | cons c r' =>
      have := hr c rfl
      simp [takeDigits, this]
  | cons x xs ih =>
    have hx := hds x (by simp)
    have h2 := ih fun c hc => hds c (by simp [hc])
    simp only [List.cons_append, takeDigits, hx, if_true, List.append_eq]
    rw [h2]

theorem non_zero_u16_split (ds r : List Char) (hne : ds ≠ [])
    (hds : ∀ c ∈ ds, c.isDigit = true)
    (hr : ∀ c, r.head? = some c → c.isDigit = false) :
    non_zero_u16 (ds ++ r) =
      if digitsToNat ds > 4294967295 then .error .InvalidPort
      else if h1 : digitsToNat ds > 65535 then .error (.InvalidPortNumber (digitsToNat ds))
      else if h2 : digitsToNat ds = 0 then .error (.InvalidPortNumber (digitsToNat ds))
      else .ok (⟨digitsToNat ds, Nat.pos_of_ne_zero h2, by omega⟩, r) := by
  unfold non_zero_u16
  rw [takeDigits_split ds r hds hr]
  have hie : ds.isEmpty = false := by
    cases ds
    · exact absurd rfl hne
    · rfl
  simp only [hie, Bool.false_eq_true, if_false]

theorem port_number_digits (ds r : List Char) (hne : ds ≠ [])
    (hds : ∀ c ∈ ds, c.isDigit = true)
    (hr : ∀ c, r.head? = some c → c.isDigit = false) :
    port_number (ds ++ r) =
      if digitsToNat ds > 4294967295 then .error .InvalidPort
      else if h1 : digitsToNat ds > 65535 then .error (.InvalidPortNumber (digitsToNat ds))
      else if h2 : digitsToNat ds = 0 then .error (.InvalidPortNumber (digitsToNat ds))
      else .ok (some ⟨digitsToNat ds, Nat.pos_of_ne_zero h2, by omega⟩, r) := by
  obtain ⟨x, xs, rfl⟩ := List.exists_cons_of_ne_nil hne
  have hx : x.isDigit = true := hds x (by simp)
  obtain ⟨hxw, hxd⟩ := isDigit_not_special x hx
  unfold port_number
  rw [List.cons_append]
  simp only [wildcard, if_neg hxw]
  rw [if_neg (by simp [hxd])]
  rw [← List.cons_append, non_zero_u16_split (x :: xs) r hne hds hr]
  split_ifs with hb h1 h2 <;> rfl

/-! ## Encoded-row lemmas (round trip) -/

theorem text_field_encoded (v : Option (List Char)) (hclean : optNoSpecialChars v)
    (hne : v ≠ some []) (r : List Char) :
    field (encodeTextField v ++ DELIMITER_CHAR :: r) = .ok (v, DELIMITER_CHAR :: r) := by
  cases v with
  | none =>
    simp [encodeTextField, field, wildcard, List.cons_append, WILDCARD_CHAR]
  | some w =>
    have hw : ∀ c ∈ w, isNormalChar c = true := hclean
    have hwe : w ≠ [] := fun hcon => hne (by rw [hcon])
    simp only [encodeTextField]
    rw [escape_into_clean w (fun c hc => isNormalChar_not_escapable c (hw c hc))]
    exact field_clean w hw hwe DELIMITER_CHAR (by decide) (by decide) r

theorem hostname_field_encoded (v : Option (List Char)) (hclean : optNoSpecialChars v)
    (hne : v ≠ some []) (r : List Char) :
    hostname_field (encodeTextField v ++ DELIMITER_CHAR :: r) = .ok (v, r) := by
  unfold hostname_field
  rw [text_field_encoded v hclean hne r]
  simp [field_delimiter]

theorem database_field_encoded (v : Option (List Char)) (hclean : optNoSpecialChars v)
    (hne : v ≠ some []) (r : List Char) :
    database_field (encodeTextField v ++ DELIMITER_CHAR :: r) = .ok (v, r) := by
  unfold database_field
  rw [text_field_encoded v hclean hne r]
  simp [field_delimiter]

theorem username_field_encoded (v : Option (List Char)) (hclean : optNoSpecialChars v)
    (hne : v ≠ some []) (r : List Char) :
    username_field (encodeTextField v ++ DELIMITER_CHAR :: r) = .ok (v, r) := by
  unfold username_field
  rw [text_field_encoded v hclean hne r]
  simp [field_delimiter]

theorem port_field_encoded (p : Option PortNum) (r : List Char) :
    port_field (encodePortField p ++ DELIMITER_CHAR :: r) = .ok (p, r) := by
  cases p with
  | none =>
    simp [encodePortField, port_field, port_number, wildcard, WILDCARD_CHAR, DELIMITER_CHAR]
  | some pn =>
    obtain ⟨n, hn1, hn2⟩ := pn
    have hnc : encodePortField (some ⟨n, hn1, hn2⟩) = natToChars n := by
      simp only [encodePortField]
      exact escape_into_clean _ fun c hc => by
        obtain ⟨d, hd, rfl⟩ := natToChars_mem n c hc
        exact (digitChar_facts d hd).2.2.2.1
    rw [hnc]
    unfold port_field
    rw [port_number_digits (natToChars n) (DELIMITER_CHAR :: r) (natToChars_ne_nil n hn1)
      (fun c hc => by
        obtain ⟨d, hd, rfl⟩ := natToChars_mem n c hc
        exact (digitChar_facts d hd).1)
      (fun c hc => by
        simp only [List.head?_cons, Option.some.injEq] at hc
        rw [← hc]; decide)]
    rw [digitsToNat_natToChars]
    rw [if_neg (by omega), dif_neg (by omega), dif_neg (by omega)]
    simp [DELIMITER_CHAR]

theorem password_field_encoded (v : List Char) (hv : ∀ c ∈ v, isNormalChar c = true)
    (hne : v ≠ []) (r : List Char) :
    password_field (escape_into v ++ '\n' :: r) = .ok (v, r) := by
  rw [escape_into_clean v (fun c hc => isNormalChar_not_escapable c (hv c hc))]
  unfold password_field required_field
  obtain ⟨x, v', rfl⟩ := List.exists_cons_of_ne_nil hne
  have hx : isNormalChar x = true := hv x (by simp)
  have hxw : x ≠ WILDCARD_CHAR := (isNormalChar_spec x hx).2.2.1
  rw [List.cons_append]
  simp only [wildcard, if_neg hxw]
  rw [← List.cons_append, field_value_clean _ hv hne '\n' (by decide) (by decide) r]
  simp [field_delimiter, line_ending, DELIMITER_CHAR]

theorem credential_pattern_encoded (p : CredentialPattern) (hp : roundTripSafe p)
    (rest : List Char) :
    credential_pattern (encode_into p ++ rest) = .ok (p, rest) := by
  obtain ⟨hh, hd, hu, hpw, hhne, hdne, hune, hpwne, -⟩ := hp
  unfold credential_pattern encode_into
  simp only [List.append_assoc, List.cons_append, List.nil_append, List.singleton_append]
  simp only [hostname_field_encoded p.hostname hh hhne, port_field_encoded p.port,
    database_field_encoded p.database hd hdne, username_field_encoded p.username hu hune,
    password_field_encoded p.password hpw hpwne]

theorem ignored_cons_none (c : Char) (t : List Char) (h1 : c ≠ '\n') (h2 : c ≠ '\r')
    (h3 : c ≠ COMMENT_CHAR) : ignored (c :: t) = none := by
  unfold ignored blank_line comment line_ending
  simp [h1, h2, h3]

theorem ignored_encode_none (p : CredentialPattern) (hp : roundTripSafe p)
    (rest : List Char) : ignored (encode_into p ++ rest) = none := by
  obtain ⟨hh, -, -, -, hhne, -, -, -, hcom⟩ := hp
  unfold encode_into
  simp only [List.append_assoc, List.cons_append, List.nil_append, List.singleton_append]
  cases hv : p.hostname with
  | none =>
    simp only [encodeTextField]
    exact ignored_cons_none WILDCARD_CHAR _ (by decide) (by decide) (by decide)
  | some w =>
    have hw : ∀ c ∈ w, isNormalChar c = true := by rw [hv] at hh; exact hh
    have hwe : w ≠ [] := fun hcon => (by rw [hv, hcon] at hhne; exact hhne rfl)
    obtain ⟨x, w', rfl⟩ := List.exists_cons_of_ne_nil hwe
    have hx : isNormalChar x = true := hw x (by simp)
    obtain ⟨-, -, -, hxr, hxn⟩ := isNormalChar_spec x hx
    have hxc : x ≠ COMMENT_CHAR := by
      intro hcon
      subst hcon
      exact hcom _ hv rfl
    simp only [encodeTextField]
    rw [escape_into_clean _ (fun c hc => isNormalChar_not_escapable c (hw c hc))]
    rw [List.cons_append]
    exact ignored_cons_none x _ hxn hxr hxc

theorem encode_into_length_pos (p : CredentialPattern) : 0 < (encode_into p).length := by
  unfold encode_into
  simp [List.length_append]

theorem pgpassGo_encode (ps : List CredentialPattern) (hps : ∀ p ∈ ps, roundTripSafe p) :
    ∀ fuel, (ps.flatMap encode_into).length < fuel →
      pgpassGo fuel (ps.flatMap encode_into) = .ok ps := by
  induction ps with
  | nil =>
    intro fuel hf
    cases fuel with
    | zero => omega
    | succ f => simp [pgpassGo]
  | cons p ps ih =>
    intro fuel hf
    cases fuel with
    | zero => omega
    | succ f =>
      have hsafe : roundTripSafe p := hps p (by simp)
      have hrest : ∀ q ∈ ps, roundTripSafe q := fun q hq => hps q (by simp [hq])
      have hpos := encode_into_length_pos p
      simp only [List.flatMap_cons] at hf ⊢
      have hne : (encode_into p ++ ps.flatMap encode_into) ≠ [] := by
        intro hcon
        rcases hc : encode_into p with - | ⟨y, ys⟩
        · rw [hc] at hpos; simp at hpos
        · rw [hc] at hcon; simp at hcon
      have hie : (encode_into p ++ ps.flatMap encode_into).isEmpty = false := by
        cases hc : encode_into p ++ ps.flatMap encode_into
        · exact absurd hc hne
        · rfl
      have harith : (ps.flatMap encode_into).length < f := by
        have h2 : (encode_into p ++ ps.flatMap encode_into).length
            = (encode_into p).length + (ps.flatMap encode_into).length :=
          List.length_append _ _
        omega
      rw [pgpassGo]
      rw [if_neg (by simp [hie])]
      simp only [ignored_encode_none p hsafe, credential_pattern_encoded p hsafe,
        ih hrest f harith]

/-! ## Consumption lemmas (each parser leaves a suffix no longer than its input) -/

theorem field_value_le (s : List Char) (v r : List Char)
    (h : field_value s = .ok (v, r)) : r.length ≤ s.length := by
  unfold field_value at h
  split_ifs at h with h1
  exact etGo_remaining_le s true v r h

theorem field_le (s : List Char) (v : Option (List Char)) (r : List Char)
    (h : field s = .ok (v, r)) : r.length ≤ s.length := by
  cases hw : wildcard s with
  | some rest =>
    simp only [field, hw, Except.ok.injEq, Prod.mk.injEq] at h
    obtain ⟨-, rfl⟩ := h
    rw [wildcard_some s rest hw]
    simp only [List.length_cons]
    omega
  | none =>
    cases hf : field_value s with
    | ok q =>
      obtain ⟨v', r'⟩ := q
      simp only [field, hw, hf, Except.ok.injEq, Prod.mk.injEq] at h
      obtain ⟨-, rfl⟩ := h
      exact field_value_le s v' r' hf
    | error e => simp [field, hw, hf] at h

theorem required_field_le (s : List Char) (v r : List Char)
    (h : required_field s = .ok (v, r)) : r.length ≤ s.length := by
  cases hw : wildcard s with
  | some rest => simp [required_field, hw] at h
  | none =>
    simp only [required_field, hw] at h
    exact field_value_le s v r h

theorem hostname_field_lt (s : List Char) (v : Option (List Char)) (r : List Char)
    (h : hostname_field s = .ok (v, r)) : r.length < s.length := by
  cases hf : field s with
  | error e => simp [hostname_field, hf] at h
  | ok q =>
    obtain ⟨v', r'⟩ := q
    cases hd : field_delimiter r' with
    | error e => simp [hostname_field, hf, hd] at h
    | ok r2 =>
      simp only [hostname_field, hf, hd, Except.ok.injEq, Prod.mk.injEq] at h
      obtain ⟨-, rfl⟩ := h
      have h1 := field_le s v' r' hf
      rw [field_delimiter_ok r' r2 hd] at h1
      simp only [List.length_cons] at h1
      omega

theorem database_field_lt (s : List Char) (v : Option (List Char)) (r : List Char)
    (h : database_field s = .ok (v, r)) : r.length < s.length := by
  cases hf : field s with
  | error e => simp [database_field, hf] at h
  | ok q =>
    obtain ⟨v', r'⟩ := q
    cases hd : field_delimiter r' with
    | error e => simp [database_field, hf, hd] at h
    | ok r2 =>
      simp only [database_field, hf, hd, Except.ok.injEq, Prod.mk.injEq] at h
      obtain ⟨-, rfl⟩ := h
      have h1 := field_le s v' r' hf
      rw [field_delimiter_ok r' r2 hd] at h1
      simp only [List.length_cons] at h1
      omega

theorem username_field_lt (s : List Char) (v : Option (List Char)) (r : List Char)
    (h : username_field s = .ok (v, r)) : r.length < s.length := by
  cases hf : field s with
  | error e => simp [username_field, hf] at h
  | ok q =>
    obtain ⟨v', r'⟩ := q
    cases hd : field_delimiter r' with
    | error e => simp [username_field, hf, hd] at h
    | ok r2 =>
      simp only [username_field, hf, hd, Except.ok.injEq, Prod.mk.injEq] at h
      obtain ⟨-, rfl⟩ := h
      have h1 := field_le s v' r' hf
      rw [field_delimiter_ok r' r2 hd] at h1
      simp only [List.length_cons] at h1
      omega

theorem takeDigits_append_eq (s : List Char) :
    (takeDigits s).1 ++ (takeDigits s).2 = s := by
  induction s with
  | nil => rfl
  | cons c rest ih =>
    by_cases hc : c.isDigit
    · simp only [takeDigits, hc, if_true]
      simpa using ih
    · simp [takeDigits, hc]

theorem non_zero_u16_le (s : List Char) (n : PortNum) (r : List Char)
    (h : non_zero_u16 s = .ok (n, r)) : r.length ≤ s.length := by
  have hsplit := congrArg List.length (takeDigits_append_eq s)
  rcases htd : takeDigits s with ⟨digits, rest⟩
  rw [htd] at hsplit
  unfold non_zero_u16 at h
  simp only [htd] at h
  split_ifs at h
  simp only [Except.ok.injEq, Prod.mk.injEq] at h
  obtain ⟨-, rfl⟩ := h
  simp only [List.length_append] at hsplit
  omega

theorem port_number_le (s : List Char) (v : Option PortNum) (r : List Char)
    (h : port_number s = .ok (v, r)) : r.length ≤ s.length := by
  cases hw : wildcard s with
  | some rest =>
    simp only [port_number, hw, Except.ok.injEq, Prod.mk.injEq] at h
    obtain ⟨-, rfl⟩ := h
    rw [wildcard_some s rest hw]
    simp only [List.length_cons]
    omega
  | none =>
    cases hs : (s.isEmpty || (s.head?.any fun c => c = DELIMITER_CHAR)) with
    | true => simp [port_number, hw, hs] at h
    | false =>
      cases hn : non_zero_u16 s with
      | ok q =>
        obtain ⟨n', r'⟩ := q
        simp only [port_number, hw, hs, Bool.false_eq_true, if_false, hn,
          Except.ok.injEq, Prod.mk.injEq] at h
        obtain ⟨-, rfl⟩ := h
        exact non_zero_u16_le s n' r' hn
      | error e => simp [port_number, hw, hs, hn] at h

theorem port_field_lt (s : List Char) (v : Option PortNum) (r : List Char)
    (h : port_field s = .ok (v, r)) : r.length < s.length := by
  cases hp : port_number s with
  | error e => simp [port_field, hp] at h
  | ok q =>
    obtain ⟨v', r'⟩ := q
    cases r' with
    | nil => simp [port_field, hp] at h
    | cons c rest =>
      have h1 := port_number_le s v' (c :: rest) hp
      by_cases hc : c = DELIMITER_CHAR
      · simp only [port_field, hp, hc, if_pos rfl, Except.ok.injEq, Prod.mk.injEq] at h
        obtain ⟨-, rfl⟩ := h
        simp only [List.length_cons] at h1
        omega
      · simp [port_field, hp, hc] at h

theorem line_ending_lt (s r : List Char) (h : line_ending s = some r) :
    r.length < s.length := by
  cases s with
  | nil => exact absurd h (by simp [line_ending])
  | cons c rest =>
    simp only [line_ending] at h
    split_ifs at h with h1 h2
    · cases h; simp
    · cases rest with
      | nil => exact absurd h (by simp)
      | cons d rest' =>
        simp only at h
        split_ifs at h with h3
        cases h
        simp only [List.length_cons]
        omega

theorem password_field_le (s : List Char) (v r : List Char)
    (h : password_field s = .ok (v, r)) : r.length ≤ s.length := by
  cases hr : required_field s with
  | error e => simp [password_field, hr] at h
  | ok q =>
    obtain ⟨pw, r'⟩ := q
    have h1 := required_field_le s pw r' hr
    cases hd : field_delimiter r' with
    | ok r2 => simp [password_field, hr, hd] at h
    | error e =>
      cases hl : line_ending r' with
      | some r2 =>
        simp only [password_field, hr, hd, hl, Except.ok.injEq, Prod.mk.injEq] at h
        obtain ⟨-, rfl⟩ := h
        have h2 := line_ending_lt r' r2 hl
        omega
      | none =>
        simp only [password_field, hr, hd, hl, Except.ok.injEq, Prod.mk.injEq] at h
        obtain ⟨-, rfl⟩ := h
        exact h1

theorem credential_pattern_lt (s : List Char) (p : CredentialPattern) (r : List Char)
    (h : credential_pattern s = .ok (p, r)) : r.length < s.length := by
  cases h1 : hostname_field s with
  | error e => simp [credential_pattern, h1] at h
  | ok q1 =>
    obtain ⟨hn, r1⟩ := q1
    cases h2 : port_field r1 with
    | error e => simp [credential_pattern, h1, h2] at h
    | ok q2 =>
      obtain ⟨pt, r2⟩ := q2
      cases h3 : database_field r2 with
      | error e => simp [credential_pattern, h1, h2, h3] at h
      | ok q3 =>
        obtain ⟨db, r3⟩ := q3
        cases h4 : username_field r3 with
        | error e => simp [credential_pattern, h1, h2, h3, h4] at h
        | ok q4 =>
          obtain ⟨un, r4⟩ := q4
          cases h5 : password_field r4 with
          | error e => simp [credential_pattern, h1, h2, h3, h4, h5] at h
          | ok q5 =>
            obtain ⟨pw, r5⟩ := q5
            simp only [credential_pattern, h1, h2, h3, h4, h5, Except.ok.injEq,
              Prod.mk.injEq] at h
            obtain ⟨-, rfl⟩ := h
            have l1 := hostname_field_lt s hn r1 h1
            have l2 := port_field_lt r1 pt r2 h2
            have l3 := database_field_lt r2 db r3 h3
            have l4 := username_field_lt r3 un r4 h4
            have l5 := password_field_le r4 pw r5 h5
            omega

theorem dropWhile_length_le (p : Char → Bool) (l : List Char) :
    (l.dropWhile p).length ≤ l.length := by
  induction l with
  | nil => simp
  | cons x xs ih =>
    by_cases hx : p x
    · rw [List.dropWhile_cons_of_pos hx]
      simp only [List.length_cons]
      omega
    · rw [List.dropWhile_cons_of_neg hx]

theorem comment_lt (s r : List Char) (h : comment s = some r) :
    r.length < s.length := by
  cases s with
  | nil => exact absurd h (by simp [comment])
  | cons c rest =>
    simp only [comment] at h
    split_ifs at h with h1
    · cases hl : line_ending (rest.dropWhile fun d => !(d = '\r' || d = '\n')) with
      | some r2 =>
        rw [hl] at h
        simp only [Option.some.injEq] at h
        subst h
        have ha := line_ending_lt _ r2 hl
        have hb := dropWhile_length_le (fun d => !(d = '\r' || d = '\n')) rest
        simp only [List.length_cons]
        omega
      | none =>
        rw [hl] at h
        simp only [Option.some.injEq] at h
        subst h
        have hb := dropWhile_length_le (fun d => !(d = '\r' || d = '\n')) rest
        simp only [List.length_cons]
        omega

theorem ignored_lt (s r : List Char) (h : ignored s = some r) :
    r.length < s.length := by
  cases hl : line_ending s with
  | some r2 =>
    simp only [ignored, blank_line, hl, Option.some.injEq] at h
    subst h
    exact line_ending_lt s r2 hl
  | none =>
    simp only [ignored, blank_line, hl] at h
    exact comment_lt s r h

/-! ## No catch-all errors (the Unknown variants are unreachable) -/

theorem field_value_error_ne_unknown (s : List Char) (e : FieldError)
    (h : field_value s = .error e) : e ≠ .Unknown := by
  unfold field_value at h
  split_ifs at h with h1
  · simp only [Except.error.injEq] at h
    simp [← h]
  · exact etGo_error_ne_unknown s true e h

theorem field_error_ne_unknown (s : List Char) (e : FieldError)
    (h : field s = .error e) : e ≠ .Unknown := by
  cases hw : wildcard s with
  | some rest => simp [field, hw] at h
  | none =>
    cases hf : field_value s with
    | ok q =>
      obtain ⟨v, r⟩ := q
      simp [field, hw, hf] at h
    | error e' =>
      simp only [field, hw, hf, Except.error.injEq] at h
      exact h ▸ field_value_error_ne_unknown s e' hf

theorem required_field_error_ne_unknown (s : List Char) (e : FieldError)
    (h : required_field s = .error e) : e ≠ .Unknown := by
  cases hw : wildcard s with
  | some rest =>
    simp only [required_field, hw, Except.error.injEq] at h
    simp [← h]
  | none =>
    simp only [required_field, hw] at h
    exact field_value_error_ne_unknown s e h

theorem field_delimiter_error (s : List Char) (e : FieldError)
    (h : field_delimiter s = .error e) : e = .Undelimited := by
  cases s with
  | nil =>
    simp only [field_delimiter, Except.error.injEq] at h
    rw [h]
  | cons c rest =>
    simp only [field_delimiter] at h
    split_ifs at h with hc
    simp only [Except.error.injEq] at h
    rw [h]

theorem non_zero_u16_error_ne_unknown (s : List Char) (e : PortError)
    (h : non_zero_u16 s = .error e) : e ≠ .Unknown := by
  rcases htd : takeDigits s with ⟨digits, rest⟩
  unfold non_zero_u16 at h
  simp only [htd] at h
  split_ifs at h <;> simp only [Except.error.injEq] at h <;> simp [← h]

theorem port_number_error_ne_unknown (s : List Char) (e : PortError)
    (h : port_number s = .error e) : e ≠ .Unknown := by
  cases hw : wildcard s with
  | some rest => simp [port_number, hw] at h
  | none =>
    cases hs : (s.isEmpty || (s.head?.any fun c => c = DELIMITER_CHAR)) with
    | true =>
      simp only [port_number, hw, hs, if_true, Except.error.injEq] at h
      simp [← h]
    | false =>
      cases hn : non_zero_u16 s with
      | ok q =>
        obtain ⟨n, r⟩ := q
        simp [port_number, hw, hs, hn] at h
      | error e' =>
        simp only [port_number, hw, hs, Bool.false_eq_true, if_false, hn,
          Except.error.injEq] at h
        exact h ▸ non_zero_u16_error_ne_unknown s e' hn

theorem mentionsUnknown_hostname (e : FieldError) (h : e ≠ .Unknown) :
    mentionsUnknown (.InvalidHostname e) = false := by
  cases e <;> simp_all [mentionsUnknown]

theorem mentionsUnknown_database (e : FieldError) (h : e ≠ .Unknown) :
    mentionsUnknown (.InvalidDatabase e) = false := by
  cases e <;> simp_all [mentionsUnknown]

theorem mentionsUnknown_username (e : FieldError) (h : e ≠ .Unknown) :
    mentionsUnknown (.InvalidUsername e) = false := by
  cases e <;> simp_all [mentionsUnknown]

theorem mentionsUnknown_password (e : FieldError) (h : e ≠ .Unknown) :
    mentionsUnknown (.InvalidPassword e) = false := by
  cases e <;> simp_all [mentionsUnknown]

theorem mentionsUnknown_port (e : PortError) (h : e ≠ .Unknown) :
    mentionsUnknown (.InvalidPort e) = false := by
  cases e <;> simp_all [mentionsUnknown]

theorem hostname_field_no_unknown (s : List Char) (pe : ParsingError)
    (h : hostname_field s = .error pe) : mentionsUnknown pe = false := by
  cases hf : field s with
  | error e =>
    simp only [hostname_field, hf, Except.error.injEq] at h
    exact h ▸ mentionsUnknown_hostname e (field_error_ne_unknown s e hf)
  | ok q =>
    obtain ⟨v, r⟩ := q
    cases hd : field_delimiter r with
    | error e =>
      simp only [hostname_field, hf, hd, Except.error.injEq] at h
      rw [field_delimiter_error r e hd] at h
      rw [← h]
      simp [mentionsUnknown]
    | ok r2 => simp [hostname_field, hf, hd] at h

theorem database_field_no_unknown (s : List Char) (pe : ParsingError)
    (h : database_field s = .error pe) : mentionsUnknown pe = false := by
  cases hf : field s with
  | error e =>
    simp only [database_field, hf, Except.error.injEq] at h
    exact h ▸ mentionsUnknown_database e (field_error_ne_unknown s e hf)
  | ok q =>
    obtain ⟨v, r⟩ := q
    cases hd : field_delimiter r with
    | error e =>
      simp only [database_field, hf, hd, Except.error.injEq] at h
      rw [field_delimiter_error r e hd] at h
      rw [← h]
      simp [mentionsUnknown]
    | ok r2 => simp [database_field, hf, hd] at h

theorem username_field_no_unknown (s : List Char) (pe : ParsingError)
    (h : username_field s = .error pe) : mentionsUnknown pe = false := by
  cases hf : field s with
  | error e =>
    simp only [username_field, hf, Except.error.injEq] at h
    exact h ▸ mentionsUnknown_username e (field_error_ne_unknown s e hf)
  | ok q =>
    obtain ⟨v, r⟩ := q
    cases hd : field_delimiter r with
    | error e =>
      simp only [username_field, hf, hd, Except.error.injEq] at h
      rw [field_delimiter_error r e hd] at h
      rw [← h]
      simp [mentionsUnknown]
    | ok r2 => simp [username_field, hf, hd] at h

theorem port_field_no_unknown (s : List Char) (pe : ParsingError)
    (h : port_field s = .error pe) : mentionsUnknown pe = false := by
  cases hp : port_number s with
  | error e =>
    simp only [port_field, hp, Except.error.injEq] at h
    exact h ▸ mentionsUnknown_port e (port_number_error_ne_unknown s e hp)
  | ok q =>
    obtain ⟨v, r⟩ := q
    cases r with
    | nil =>
      simp only [port_field, hp, Except.error.injEq] at h
      rw [← h]
      simp [mentionsUnknown]
    | cons c rest =>
      by_cases hc : c = DELIMITER_CHAR
      · simp [port_field, hp, hc] at h
      · simp only [port_field, hp, if_neg hc, Except.error.injEq] at h
        rw [← h]
        simp [mentionsUnknown]

theorem password_field_no_unknown (s : List Char) (pe : ParsingError)
    (h : password_field s = .error pe) : mentionsUnknown pe = false := by
  cases hr : required_field s with
  | error e =>
    simp only [password_field, hr, Except.error.injEq] at h
    exact h ▸ mentionsUnknown_password e (required_field_error_ne_unknown s e hr)
  | ok q =>
    obtain ⟨pw, r⟩ := q
    cases hd : field_delimiter r with
    | ok r2 =>
      simp only [password_field, hr, hd, Except.error.injEq] at h
      rw [← h]
      simp [mentionsUnknown]
    | error e =>
      cases hl : line_ending r with
      | some r2 => simp [password_field, hr, hd, hl] at h
      | none => simp [password_field, hr, hd, hl] at h

theorem credential_pattern_no_unknown (s : List Char) (pe : ParsingError)
    (h : credential_pattern s = .error pe) : mentionsUnknown pe = false := by
  cases h1 : hostname_field s with
  | error e =>
    simp only [credential_pattern, h1, Except.error.injEq] at h
    exact h ▸ hostname_field_no_unknown s e h1
  | ok q1 =>
    obtain ⟨hn, r1⟩ := q1
    cases h2 : port_field r1 with
    | error e =>
      simp only [credential_pattern, h1, h2, Except.error.injEq] at h
      exact h ▸ port_field_no_unknown r1 e h2
    | ok q2 =>
      obtain ⟨pt, r2⟩ := q2
      cases h3 : database_field r2 with
      | error e =>
        simp only [credential_pattern, h1, h2, h3, Except.error.injEq] at h
        exact h ▸ database_field_no_unknown r2 e h3
      | ok q3 =>
        obtain ⟨db, r3⟩ := q3
        cases h4 : username_field r3 with
        | error e =>
          simp only [credential_pattern, h1, h2, h3, h4, Except.error.injEq] at h
          exact h ▸ username_field_no_unknown r3 e h4
        | ok q4 =>
          obtain ⟨un, r4⟩ := q4
          cases h5 : password_field r4 with
          | error e =>
            simp only [credential_pattern, h1, h2, h3, h4, h5, Except.error.injEq] at h
            exact h ▸ password_field_no_unknown r4 e h5
          | ok q5 =>
            obtain ⟨pw, r5⟩ := q5
            simp [credential_pattern, h1, h2, h3, h4, h5] at h

theorem pgpassGo_no_unknown : ∀ (fuel : Nat) (s : List Char), s.length < fuel →
    ∀ e, pgpassGo fuel s = .error e → mentionsUnknown e = false := by
  intro fuel
  induction fuel with
  | zero => intro s hs; omega
  | succ f ih =>
    intro s hs e h
    rw [pgpassGo] at h
    by_cases hse : s.isEmpty
    · rw [if_pos hse] at h
      exact absurd h (by simp)
    · rw [if_neg hse] at h
      cases hi : ignored s with
      | some r =>
        simp only [hi] at h
        have hlt := ignored_lt s r hi
        exact ih r (by omega) e h
      | none =>
        cases hc : credential_pattern s with
        | error e' =>
          simp only [hi, hc, Except.error.injEq] at h
          exact h ▸ credential_pattern_no_unknown s e' hc
        | ok q =>
          obtain ⟨p, r⟩ := q
          cases hg : pgpassGo f r with
          | error e' =>
            simp only [hi, hc, hg, Except.error.injEq] at h
            have hlt := credential_pattern_lt s p r hc
            exact h ▸ ih r (by omega) e' hg
          | ok ps => simp [hi, hc, hg] at h

/-! ## Resolver lemmas -/

theorem fieldCompatible_iff (q p : Option (List Char)) :
    fieldCompatible q p = true ↔
      (q = none ∨ p = none ∨ ∃ v, q = some v ∧ p = some v) := by
  cases q <;> cases p <;> simp [fieldCompatible, eq_comm]

theorem portCompatible_iff (q p : Option PortNum) :
    portCompatible q p = true ↔
      (q = none ∨ p = none ∨ ∃ v, q = some v ∧ p = some v) := by
  cases q <;> cases p <;> simp [portCompatible, eq_comm]

theorem findIn_eq_first_match (q : CredentialQuery) (l : List CredentialPattern) :
    findIn q l =
      match l.find? (patternMatches q) with
      | none => .ok none
      | some p =>
        match pattern_to_creds q p with
        | .ok c => .ok (some c)
        | .error e => .error e := by
  induction l with
  | nil => rfl
  | cons p rest ih =>
    by_cases h : patternMatches q p
    · simp [findIn, List.find?, h]
    · simp only [Bool.not_eq_true] at h
      simp [findIn, List.find?, h, ih]

/-! ## Claim theorems: resolver -/

/-- Claim C1: `find` scans the document's rows in stored order and returns its
result from the first compatible row only — where compatibility is, per field
(hostname, port, database, username): query wildcard, or row wildcard, or equal
concrete values — and if the merge of that first compatible row is incomplete,
the incompleteness error is returned without trying any later row. -/
theorem find_first_compatible_row (pg : PgPass) (q : CredentialQuery) :
    (∀ p : CredentialPattern, patternMatches q p = true ↔
      ((q.hostname = none ∨ p.hostname = none ∨
          ∃ v, q.hostname = some v ∧ p.hostname = some v) ∧
       (q.port = none ∨ p.port = none ∨ ∃ v, q.port = some v ∧ p.port = some v) ∧
       (q.database = none ∨ p.database = none ∨
          ∃ v, q.database = some v ∧ p.database = some v) ∧
       (q.username = none ∨ p.username = none ∨
          ∃ v, q.username = some v ∧ p.username = some v))) ∧
    pg.find q =
      match pg.patterns.find? (patternMatches q) with
      | none => .ok none
      | some p =>
        match pattern_to_creds q p with
        | .ok c => .ok (some c)
        | .error e => .error e := by
  constructor
  · intro p
    simp only [patternMatches, Bool.and_eq_true, fieldCompatible_iff, portCompatible_iff,
      and_assoc]
  · exact findIn_eq_first_match q pg.patterns

/-- Claim C2: resolving a selected row merges per field — the query's concrete
value if present, else the row's, else (port only) the default port 5432 —
fails with `MissingHostname`/`MissingDatabase`/`MissingUsername` when the
corresponding field is absent after the merge, and always takes the password
from the matched row. -/
theorem pattern_to_creds_follows_spec (q : CredentialQuery) (p : CredentialPattern) :
    pattern_to_creds q p = resolveRowSpec q p := by
  unfold pattern_to_creds tryIntoCredentials resolveRowSpec mergedField mergedPort
  cases q.hostname <;> cases q.database <;> cases q.username <;> cases q.port <;>
    simp [Option.or]

/-- Claim C10: parsing the empty string yields a document with no rows, and
`find` on a rowless document answers "not found" for every query. -/
theorem empty_input_empty_document :
    pgpass [] = .ok ⟨[]⟩ ∧ ∀ q : CredentialQuery, PgPass.find ⟨[]⟩ q = .ok none := by
  exact ⟨rfl, fun _ => rfl⟩

/-- Claim C8: a sixth column after the password is rejected with
`UnrecognizedColumn`, and a wildcard password is rejected with
`Required` (wrapped as `InvalidPassword`). -/
theorem malformed_rows_rejected :
    pgpass "one:2:three:four:five:six".toList = .error .UnrecognizedColumn ∧
    pgpass "one:2:three:four:*".toList = .error (.InvalidPassword .Required) := by
  constructor <;> decide

/-- Claim C9: the debug formatting of `Credentials` redacts the password
unconditionally — it depends only on hostname, port, database and username, so
two records differing only in password format identically and no password
content reaches the output. -/
theorem debug_fmt_ignores_password (c₁ c₂ : Credentials)
    (hh : c₁.hostname = c₂.hostname) (hp : c₁.port = c₂.port)
    (hd : c₁.database = c₂.database) (hu : c₁.username = c₂.username) :
    c₁.debugFmt = c₂.debugFmt := by
  simp [Credentials.debugFmt, hh, hp, hd, hu]

/-- Witness for C9: two concrete records that differ only in password have
identical debug output. -/
theorem debug_fmt_ignores_password_witness :
    (⟨['h'], defaultPortNum, ['d'], ['u'], ['a']⟩ : Credentials).password ≠
      (⟨['h'], defaultPortNum, ['d'], ['u'], ['b']⟩ : Credentials).password ∧
    (⟨['h'], defaultPortNum, ['d'], ['u'], ['a']⟩ : Credentials).debugFmt =
      (⟨['h'], defaultPortNum, ['d'], ['u'], ['b']⟩ : Credentials).debugFmt :=
  ⟨by decide, debug_fmt_ignores_password _ _ rfl rfl rfl rfl⟩

/-- Claim C3 as stated is false: the hostname `"#"` contains no delimiter,
wildcard, escape, or line-break character, yet its encoded row starts with the
comment character, so the parser skips it as a comment and the round trip loses
the row. -/
theorem round_trip_counterexample :
    docHasNoSpecialChars ⟨[⟨some [COMMENT_CHAR], none, some ['a'], some ['b'], ['c']⟩]⟩ ∧
    pgpass (encodePgPass ⟨[⟨some [COMMENT_CHAR], none, some ['a'], some ['b'], ['c']⟩]⟩) ≠
      .ok ⟨[⟨some [COMMENT_CHAR], none, some ['a'], some ['b'], ['c']⟩]⟩ := by
  constructor
  · intro p hp
    simp only [List.mem_singleton] at hp
    subst hp
    simp only [optNoSpecialChars, noSpecialChars]
    refine ⟨by decide, by decide, by decide, by decide⟩
  · decide

/-- Claim C3, amended: for any document whose fields contain no delimiter,
wildcard, escape, or line-break characters, whose concrete text fields and
passwords are non-empty, and whose concrete hostnames do not begin with the
comment character, parsing the encoder's output yields the original document. -/
theorem round_trip_amended (pg : PgPass) (h : ∀ p ∈ pg.patterns, roundTripSafe p) :
    pgpass (encodePgPass pg) = .ok pg := by
  unfold pgpass encodePgPass
  rw [pgpassGo_encode pg.patterns h _ (Nat.lt_succ_self _)]

theorem witness_row_safe :
    ∀ p ∈ (⟨[⟨some ['h'], some ⟨5432, by omega, by omega⟩, some ['d'], some ['u'],
        ['p', 'w']⟩]⟩ : PgPass).patterns, roundTripSafe p := by
  intro p hp
  simp only [List.mem_singleton] at hp
  subst hp
  simp only [roundTripSafe, optNoSpecialChars, noSpecialChars]
  refine ⟨by decide, by decide, by decide, by decide, by decide, by decide, by decide,
    by decide, ?_⟩
  intro v hv
  simp only [Option.some.injEq] at hv
  subst hv
  decide

/-- Witness for the amended round trip at a concrete one-row document. -/
theorem round_trip_amended_witness :
    (∀ p ∈ (⟨[⟨some ['h'], some ⟨5432, by omega, by omega⟩, some ['d'], some ['u'],
        ['p', 'w']⟩]⟩ : PgPass).patterns, roundTripSafe p) ∧
    pgpass (encodePgPass ⟨[⟨some ['h'], some ⟨5432, by omega, by omega⟩, some ['d'],
        some ['u'], ['p', 'w']⟩]⟩) =
      .ok ⟨[⟨some ['h'], some ⟨5432, by omega, by omega⟩, some ['d'], some ['u'],
        ['p', 'w']⟩]⟩ :=
  ⟨witness_row_safe, round_trip_amended _ witness_row_safe⟩

/-- Claim C4: for every input string, document parsing either succeeds or fails
with one of the named error kinds; the catch-all `Unknown` variant — at the
field, port, or document level — is never produced. -/
theorem parse_never_unknown (s : List Char) (e : ParsingError)
    (h : pgpass s = .error e) : mentionsUnknown e = false := by
  unfold pgpass at h
  cases hg : pgpassGo (s.length + 1) s with
  | error e' =>
    simp only [hg, Except.error.injEq] at h
    exact h ▸ pgpassGo_no_unknown (s.length + 1) s (Nat.lt_succ_self _) e' hg
  | ok ps => simp [hg] at h

/-- Witness for C4: a concrete malformed input fails with a named (non-Unknown)
error. -/
theorem parse_never_unknown_witness :
    pgpass ['\\', 'q'] = .error (.InvalidHostname (.InvalidEscape 'q')) ∧
    mentionsUnknown (.InvalidHostname (.InvalidEscape 'q')) = false :=
  ⟨by decide, parse_never_unknown ['\\', 'q'] _ (by decide)⟩

/-- Claim C5: in row context, a field decodes to the wildcard value exactly when
the wildcard token is the entire field content up to the delimiter (consuming
just the token), and an unescaped `*` after other field text is an error, never
a successful parse. -/
theorem wildcard_exact_token :
    (∀ s r : List Char, hostname_field s = .ok (none, r) ↔
      s = WILDCARD_CHAR :: DELIMITER_CHAR :: r) ∧
    (∀ pre post : List Char, pre ≠ [] → (∀ c ∈ pre, isNormalChar c = true) →
      hostname_field (pre ++ WILDCARD_CHAR :: post) =
        .error (.InvalidHostname .Undelimited)) := by
  constructor
  · intro s r
    constructor
    · intro h
      cases hf : field s with
      | error e => simp [hostname_field, hf] at h
      | ok q =>
        obtain ⟨v, r'⟩ := q
        cases hd : field_delimiter r' with
        | error e => simp [hostname_field, hf, hd] at h
        | ok r2 =>
          simp only [hostname_field, hf, hd, Except.ok.injEq, Prod.mk.injEq] at h
          obtain ⟨rfl, rfl⟩ := h
          rw [wildcard_some s r' (field_none s r' hf), field_delimiter_ok r' r2 hd]
    · intro h
      subst h
      simp [hostname_field, field, wildcard, field_delimiter]
  · intro pre post hne hpre
    have hfield : field (pre ++ WILDCARD_CHAR :: post) = .ok (some pre, WILDCARD_CHAR :: post) :=
      field_clean pre hpre hne WILDCARD_CHAR (by decide) (by decide) post
    simp only [hostname_field, hfield, field_delimiter]
    rw [if_neg (by decide)]

/-- Witness for C5: a concrete unescaped interior wildcard is rejected. -/
theorem wildcard_exact_token_witness :
    hostname_field (['a'] ++ WILDCARD_CHAR :: ['b']) =
      .error (.InvalidHostname .Undelimited) :=
  wildcard_exact_token.2 ['a'] ['b'] (by decide) (by decide)

/-- Claim C6: exactly the three escape pairs escape+escape, escape+delimiter and
escape+wildcard decode to the single literal character (`"abc\:def"` decodes to
`"abc:def"`, `"abc\*def"` to `"abc*def"`); any other escaped character `c`
fails with `InvalidEscape c` (`"abc\xdef"` fails with `InvalidEscape 'x'`), and
a trailing escape character fails with `InvalidEscapeNoChar`. -/
theorem escape_sequences :
    field ['a', 'b', 'c', '\\', ':', 'd', 'e', 'f'] =
      .ok (some ['a', 'b', 'c', ':', 'd', 'e', 'f'], []) ∧
    field ['a', 'b', 'c', '\\', '*', 'd', 'e', 'f'] =
      .ok (some ['a', 'b', 'c', '*', 'd', 'e', 'f'], []) ∧
    field ['a', 'b', 'c', '\\', '\\', 'd', 'e', 'f'] =
      .ok (some ['a', 'b', 'c', '\\', 'd', 'e', 'f'], []) ∧
    field ['a', 'b', 'c', '\\', 'x', 'd', 'e', 'f'] =
      .error (.InvalidEscape 'x') ∧
    field ['a', 'b', 'c', '\\'] = .error .InvalidEscapeNoChar ∧
    (∀ (c : Char) (rest : List Char) (b : Bool),
      (c = ESCAPE_CHAR ∨ c = DELIMITER_CHAR ∨ c = WILDCARD_CHAR) →
      escapedTransformGo (ESCAPE_CHAR :: c :: rest) b =
        match escapedTransformGo rest false with
        | .ok (v, r) => .ok (c :: v, r)
        | .error e => .error e) ∧
    (∀ (c : Char) (rest : List Char) (b : Bool),
      ¬(c = ESCAPE_CHAR ∨ c = DELIMITER_CHAR ∨ c = WILDCARD_CHAR) →
      escapedTransformGo (ESCAPE_CHAR :: c :: rest) b = .error (.InvalidEscape c)) ∧
    (∀ b : Bool, escapedTransformGo [ESCAPE_CHAR] b = .error .InvalidEscapeNoChar) := by
  refine ⟨by decide, by decide, by decide, by decide, by decide, ?_, ?_, ?_⟩
  · intro c rest b hc
    rw [etGo_escape_pair c rest b, if_pos hc]
  · intro c rest b hc
    rw [etGo_escape_pair c rest b, if_neg hc]
  · exact etGo_escape_end

/-- Witness for C6: the general escape clauses evaluated at concrete inputs. -/
theorem escape_sequences_witness :
    escapedTransformGo (ESCAPE_CHAR :: ':' :: ['z']) false =
      (match escapedTransformGo ['z'] false with
       | .ok (v, r) => .ok (':' :: v, r)
       | .error e => .error e) ∧
    escapedTransformGo (ESCAPE_CHAR :: 'x' :: ['z']) false =
      .error (.InvalidEscape 'x') :=
  ⟨escape_sequences.2.2.2.2.2.1 ':' ['z'] false (by decide),
   escape_sequences.2.2.2.2.2.2.1 'x' ['z'] false (by decide)⟩

/-- Claim C7 as stated is false on the input `"4294967296"`: every character is
a digit and the denoted magnitude exceeds 65535, so the claim prescribes
`InvalidPortNumber 4294967296`, but the code's `u32` parse fails first and the
result is `InvalidPort`. -/
theorem port_decoding_counterexample :
    (∀ c ∈ "4294967296".toList, c.isDigit = true) ∧
    digitsToNat "4294967296".toList > 65535 ∧
    port_number "4294967296".toList = .error .InvalidPort ∧
    port_number "4294967296".toList ≠
      .error (.InvalidPortNumber (digitsToNat "4294967296".toList)) :=
  ⟨by decide, by decide, by decide, by decide⟩

/-- Claim C7, amended: the wildcard token maps to the wildcard value; a
non-digit at the start of the field fails with `InvalidPort`; an empty port
field fails with `Empty`, distinct from `InvalidPort`; a digit string whose
magnitude fits in a `u32` but is 0 or exceeds 65535 fails with
`InvalidPortNumber` carrying that magnitude (in particular `"0"` and
`"65536"`); a digit string whose magnitude exceeds `u32::MAX` fails with
`InvalidPort`; and any other digit string in `1..=65535` yields that concrete
port. -/
theorem port_decoding_amended :
    (∀ r : List Char, port_number (WILDCARD_CHAR :: r) = .ok (none, r)) ∧
    port_number [] = .error .Empty ∧
    (∀ r : List Char, port_number (DELIMITER_CHAR :: r) = .error .Empty) ∧
    (.Empty : PortError) ≠ .InvalidPort ∧
    (∀ (c : Char) (r : List Char), c.isDigit = false → c ≠ WILDCARD_CHAR →
      c ≠ DELIMITER_CHAR → port_number (c :: r) = .error .InvalidPort) ∧
    port_number ['0'] = .error (.InvalidPortNumber 0) ∧
    port_number ['6', '5', '5', '3', '6'] = .error (.InvalidPortNumber 65536) ∧
    (∀ ds r : List Char, ds ≠ [] → (∀ c ∈ ds, c.isDigit = true) →
      (∀ c, r.head? = some c → c.isDigit = false) →
      (digitsToNat ds ≤ 4294967295 → (digitsToNat ds = 0 ∨ digitsToNat ds > 65535) →
        port_number (ds ++ r) = .error (.InvalidPortNumber (digitsToNat ds))) ∧
      (digitsToNat ds > 4294967295 → port_number (ds ++ r) = .error .InvalidPort) ∧
      (∀ (h1 : 0 < digitsToNat ds) (h2 : digitsToNat ds < 65536),
        port_number (ds ++ r) = .ok (some ⟨digitsToNat ds, h1, h2⟩, r))) := by
  refine ⟨?_, by decide, ?_, by decide, ?_, by decide, by decide, ?_⟩
  · intro r
    simp [port_number, wildcard]
  · intro r
    have hw : wildcard (':' :: r) = none := by
      simp only [wildcard, if_neg (by decide : ¬(':' : Char) = WILDCARD_CHAR)]
    simp [port_number, hw, DELIMITER_CHAR]
  · intro c r hcd hcw hccol
    have hw : wildcard (c :: r) = none := by
      simp only [wildcard, if_neg hcw]
    have htd : takeDigits (c :: r) = ([], c :: r) := by
      simp [takeDigits, hcd]
    simp [port_number, hw, non_zero_u16, htd, hccol]
  · intro ds r hne hds hr
    have key := port_number_digits ds r hne hds hr
    refine ⟨?_, ?_, ?_⟩
    · intro hle hbad
      rw [key]
      rcases hbad with h0 | hhi
      · rw [if_neg (by omega), dif_neg (by omega), dif_pos h0]
      · rw [if_neg (by omega), dif_pos hhi]
    · intro hover
      rw [key, if_pos hover]
    · intro h1 h2
      rw [key, if_neg (by omega), dif_neg (by omega), dif_neg (by omega)]

/-- Witness for the amended C7 at concrete inputs. -/
theorem port_decoding_amended_witness :
    port_number ['a'] = .error .InvalidPort ∧
    port_number (['4', '1'] ++ [':']) = .ok (some ⟨41, by omega, by omega⟩, [':']) :=
  ⟨port_decoding_amended.2.2.2.2.1 'a' [] (by decide) (by decide) (by decide),
   (port_decoding_amended.2.2.2.2.2.2.2 ['4', '1'] [':'] (by decide) (by decide)
      (by
        intro c hc
        simp only [List.head?_cons, Option.some.injEq] at hc
        subst hc
        decide)).2.2 (by decide) (by decide)⟩

end PostgresSecrets
